import Mathlib

/-!
Verification of the citation/reference indexing engine of `Excite.py`.

The development shallowly embeds the program:

* `Bibliography` mirrors the Python class `Bibliography` (fields `order`,
  `orderby`, `citations`, `references`).  Python dictionaries are modelled as
  association lists in insertion order; `references` is a
  `collections.defaultdict(str)`, whose factory value is kept in the extra
  field `dflt` (always the empty string in the program; the node-storing
  instantiation used by the document pipeline never consults it, see below).
* Exceptions (`DuplicateReferenceError`, `MissingReferenceError`,
  `AssertionError`, `KeyError`, `TypeError`) are modelled with `Except`.
* The document pipeline (`ApplePages.ProcessCitations` and its helpers) is
  embedded in the flat-node variant: a document is a list of node texts
  (`List Char`), node identity is the position in the list, and the
  reference dictionary stores node positions.  The regex scans
  `\cite{(\w+)}` (re.findall) and `\bibitem{(\w+)} ?(.*)` (re.search) are
  implemented directly as character-list scanners; `re.sub` of the literal
  patterns is implemented as leftmost non-overlapping replace-all.
-/

namespace Excite

/-- Errors raised by the program: the two declared exception classes plus the
built-in Python exceptions the code can raise (`assert` failure, missing
dictionary key, unpacking `None`). -/
inductive ExciteError where
  | missingReference (badcites : Finset String)
  | duplicateReference (badrefs : List String)
  | assertionError
  | keyError
  | typeError
deriving DecidableEq

/-- The two supported ordering policies (`orderby` argument). -/
inductive OrderBy where
  | citationFirst
  | referenceFirst
deriving DecidableEq

/-- The Python class `Bibliography`.  `order` and `references` are Python
dicts, modelled as association lists in insertion order; `dflt` is the
factory value of the `defaultdict` used for `references` (Python:
`defaultdict(str)`, i.e. the empty string). -/
structure Bibliography (α : Type) where
  orderby : OrderBy
  order : List (String × Nat)
  citations : List String
  references : List (String × α)
  dflt : α
deriving DecidableEq

/-- Python dict lookup on the association-list model. -/
def dlookup {α : Type} : List (String × α) → String → Option α
  | [], _ => none
  | (k, v) :: rest, key => if k = key then some v else dlookup rest key

/-- Read of `references[label]` on a `defaultdict`: a missing key is inserted
with the factory value and that value is returned. -/
def defaultGet {α : Type} (refs : List (String × α)) (key : String) (d : α) :
    α × List (String × α) :=
  match dlookup refs key with
  | some v => (v, refs)
  | none => (d, refs ++ [(key, d)])

/-- Python `Bibliography.__init__` with an explicit `defaultdict` factory value
(`d`); the program always constructs it with factory `str`, i.e. `""`. -/
def mkBibliography {α : Type} (orderby : OrderBy) (d : α) : Bibliography α :=
  ⟨orderby, [], [], [], d⟩

/-- Constructor `Bibliography(orderby)` as the program calls it: label contents are
strings and the `defaultdict` factory value is the empty string. -/
def initBibliography (orderby : OrderBy) : Bibliography String :=
  mkBibliography orderby ""

/-- Python `Bibliography.__MaybeUpdateOrder`: if the label has no sequence number
yet, assign `max(order.values() + [0]) + 1`. -/
def MaybeUpdateOrder {α : Type} (b : Bibliography α) (label : String) :
    Bibliography α :=
  match dlookup b.order label with
  | some _ => b
  | none =>
      { b with order :=
          b.order ++ [(label, (b.order.map Prod.snd).foldl max 0 + 1)] }

/-- Python `Bibliography.AddCitation`.  The Python `assert` on the argument type is
vacuous for string labels; the method never raises. -/
def AddCitation {α : Type} (b : Bibliography α) (label : String) :
    Bibliography α :=
  let b' := { b with citations := b.citations ++ [label] }
  match b.orderby with
  | .citationFirst => MaybeUpdateOrder b' label
  | .referenceFirst => b'

/-- Python `Bibliography.AddReference`: raises `DuplicateReferenceError` when the
label already has a stored reference (the check precedes the store, so the
stored reference is untouched on failure). -/
def AddReference {α : Type} (b : Bibliography α) (label : String)
    (reference : α) : Except ExciteError (Bibliography α) :=
  if (dlookup b.references label).isSome then
    .error (.duplicateReference [label])
  else
    let b' := { b with references := b.references ++ [(label, reference)] }
    match b.orderby with
    | .referenceFirst => .ok (MaybeUpdateOrder b' label)
    | .citationFirst => .ok b'

/-- Python `Bibliography.Index`: dictionary lookup of the assigned sequence number
(`none` models the `KeyError` case). -/
def Index {α : Type} (b : Bibliography α) (label : String) : Option Nat :=
  dlookup b.order label

/-- Python `Bibliography.Count`. -/
def Count {α : Type} (b : Bibliography α) : Nat :=
  max b.order.length b.references.length

/-- Python `Bibliography.IsConsistent`: the literal translation of
`set(citations).intersection(set(references.keys())) == set(citations)`. -/
def IsConsistent {α : Type} (b : Bibliography α) : Bool :=
  decide (b.citations.toFinset ∩ (b.references.map Prod.fst).toFinset =
    b.citations.toFinset)

/-- Python `Bibliography.GetReferenceByIndex`: `assert index <= Count()` (failure for
larger indices only), then a scan of `order` for a label whose number equals
`index`; when one is found the `defaultdict` read of `references[label]` may
insert the factory value.  Falling through the loop returns Python `None`,
modelled by `none`. -/
def GetReferenceByIndex {α : Type} (b : Bibliography α) (index : Int) :
    Except ExciteError (Option (String × Int × α) × Bibliography α) :=
  if (Count b : Int) < index then
    .error .assertionError
  else
    match b.order.find? (fun p => ((p.2 : Nat) : Int) == index) with
    | some (label, _) =>
        let r := defaultGet b.references label b.dflt
        .ok (some (label, index, r.1), { b with references := r.2 })
    | none => .ok (none, b)

/-- Python `Bibliography.GetReferenceByLabel` (lookup by label; `none` models the
`KeyError` from `Index`). -/
def GetReferenceByLabel {α : Type} (b : Bibliography α) (label : String) :
    Option ((String × Nat × α) × Bibliography α) :=
  match Index b label with
  | none => none
  | some i =>
      let r := defaultGet b.references label b.dflt
      some ((label, i, r.1), { b with references := r.2 })

/-! ### Call sequences against a `Bibliography`

`BibOp` is one public mutating call; `runOps` plays a sequence of calls,
aborting at the first raised exception (the exception aborts the callers
whole pass in the program). -/

inductive BibOp (α : Type) where
  | cite (label : String)
  | ref (label : String) (content : α)

def applyOp {α : Type} (b : Bibliography α) : BibOp α → Except ExciteError (Bibliography α)
  | .cite l => .ok (AddCitation b l)
  | .ref l c => AddReference b l c

def runOps {α : Type} (b : Bibliography α) : List (BibOp α) → Except ExciteError (Bibliography α)
  | [] => .ok b
  | op :: ops =>
      match applyOp b op with
      | .ok b' => runOps b' ops
      | .error e => .error e

/-! ### The order table

`GoodOrder` is the gap-free numbering invariant; `stepOrder`/`extendOrder`
describe how first sightings extend the table; `sightings` extracts, from a
call sequence, the labels that drive numbering under a policy. -/

/-- Values of the `order` dict are exactly `1..|order|` in insertion order. -/
def GoodOrder (o : List (String × Nat)) : Prop :=
  o.map Prod.snd = List.range' 1 o.length

/-- One first-sighting step on the order table: unseen labels are appended
with the next sequence number. -/
def stepOrder (o : List (String × Nat)) (label : String) : List (String × Nat) :=
  if (dlookup o label).isSome then o else o ++ [(label, o.length + 1)]

/-- Iterated `stepOrder` over a list of sighted labels. -/
def extendOrder (o : List (String × Nat)) : List String → List (String × Nat)
  | [] => o
  | l :: ls => extendOrder (stepOrder o l) ls

/-- Labels of the calls that drive numbering under policy `p`: citation
labels under `citation-first`, reference labels under `reference-first`. -/
def sightings {α : Type} (p : OrderBy) (ops : List (BibOp α)) : List String :=
  ops.filterMap fun op =>
    match p, op with
    | .citationFirst, .cite l => some l
    | .referenceFirst, .ref l _ => some l
    | _, _ => none

/-- Index of the first occurrence of a label in a list (length if absent). -/
def firstIdx : List String → String → Nat
  | [], _ => 0
  | l :: ls, a => if l = a then 0 else firstIdx ls a + 1

theorem dlookup_cons {α : Type} (x : String) (y : α) (rest : List (String × α)) (k : String) :
    dlookup ((x, y) :: rest) k = if x = k then some y else dlookup rest k := rfl

/-- Frame lemma used everywhere: `MaybeUpdateOrder` only touches `order`. -/
theorem maybeUpdateOrder_frame {α : Type} (b : Bibliography α) (l : String) :
    (MaybeUpdateOrder b l).citations = b.citations ∧
    (MaybeUpdateOrder b l).references = b.references ∧
    (MaybeUpdateOrder b l).orderby = b.orderby ∧
    (MaybeUpdateOrder b l).dflt = b.dflt := by
  unfold MaybeUpdateOrder
  cases dlookup b.order l <;> simp

theorem dlookup_append {α : Type} (xs ys : List (String × α)) (k : String) :
    dlookup (xs ++ ys) k = (dlookup xs k).or (dlookup ys k) := by
  induction xs with
  | nil => simp [dlookup]
  | cons p rest ih =>
      obtain ⟨x, y⟩ := p
      by_cases h : x = k <;> simp [dlookup_cons, h, ih]

theorem foldl_max_range' (n : Nat) : ∀ a : Nat, (List.range' (a + 1) n).foldl max a = a + n := by
  induction n with
  | zero => intro a; simp
  | succ m ih =>
      intro a
      rw [List.range'_succ]
      simp only [List.foldl_cons]
      rw [Nat.max_eq_right (Nat.le_succ a), ih (a + 1)]
      omega

theorem goodOrder_max (o : List (String × Nat)) (h : GoodOrder o) :
    (o.map Prod.snd).foldl max 0 = o.length := by
  rw [h]
  simpa using foldl_max_range' o.length 0

theorem maybeUpdateOrder_order {α : Type} (b : Bibliography α) (l : String)
    (hG : GoodOrder b.order) :
    (MaybeUpdateOrder b l).order = stepOrder b.order l := by
  unfold MaybeUpdateOrder stepOrder
  cases h : dlookup b.order l with
  | some v => simp [h]
  | none => simp [h, goodOrder_max _ hG]

theorem goodOrder_stepOrder (o : List (String × Nat)) (l : String)
    (hG : GoodOrder o) : GoodOrder (stepOrder o l) := by
  unfold stepOrder
  split
  · exact hG
  · unfold GoodOrder at hG ⊢
    simp only [List.map_append, List.length_append, List.map_cons, List.map_nil,
      List.length_cons, List.length_nil]
    rw [hG, List.range'_1_concat]
    simp [Nat.add_comm]

theorem extendOrder_append_list (s₁ s₂ : List String) :
    ∀ o, extendOrder o (s₁ ++ s₂) = extendOrder (extendOrder o s₁) s₂ := by
  induction s₁ with
  | nil => intro o; simp [extendOrder]
  | cons l ls ih => intro o; simp [extendOrder, ih]

theorem goodOrder_extendOrder (s : List String) :
    ∀ o, GoodOrder o → GoodOrder (extendOrder o s) := by
  induction s with
  | nil => intro o hG; exact hG
  | cons l ls ih => intro o hG; exact ih _ (goodOrder_stepOrder o l hG)

theorem extendOrder_extends (s : List String) :
    ∀ o, ∃ t, extendOrder o s = o ++ t := by
  induction s with
  | nil => intro o; exact ⟨[], by simp [extendOrder]⟩
  | cons l ls ih =>
      intro o
      show ∃ t, extendOrder (stepOrder o l) ls = o ++ t
      unfold stepOrder
      split
      · exact ih o
      · obtain ⟨t, ht⟩ := ih (o ++ [(l, o.length + 1)])
        exact ⟨(l, o.length + 1) :: t, by rw [ht]; simp⟩

theorem dlookup_extendOrder_some (s : List String) :
    ∀ (o : List (String × Nat)) (l : String) (v : Nat),
      dlookup o l = some v → dlookup (extendOrder o s) l = some v := by
  induction s with
  | nil => intro o l v h; exact h
  | cons x xs ih =>
      intro o l v h
      apply ih
      unfold stepOrder
      split
      · exact h
      · rw [dlookup_append, h]; rfl

theorem dlookup_extendOrder_none (s : List String) :
    ∀ (o : List (String × Nat)) (l : String),
      dlookup o l = none → l ∉ s → dlookup (extendOrder o s) l = none := by
  induction s with
  | nil => intro o l h _; exact h
  | cons x xs ih =>
      intro o l h hmem
      have hx : x ≠ l := fun he => hmem (he ▸ List.mem_cons_self x xs)
      apply ih
      · unfold stepOrder
        split
        · exact h
        · rw [dlookup_append, h, dlookup_cons]
          simp [hx, dlookup]
      · exact fun hl => hmem (List.mem_cons_of_mem _ hl)

/-- All numbers already in the table are at most its size. -/
def Vbound (o : List (String × Nat)) : Prop := ∀ p ∈ o, p.2 ≤ o.length

theorem vbound_of_goodOrder (o : List (String × Nat)) (hG : GoodOrder o) : Vbound o := by
  intro p hp
  have hm : p.2 ∈ o.map Prod.snd := List.mem_map_of_mem _ hp
  rw [hG] at hm
  have := List.mem_range'_1.mp hm
  omega

theorem dlookup_extendOrder_new (s : List String) :
    ∀ (o : List (String × Nat)) (B : String), Vbound o →
      dlookup o B = none → B ∈ s →
      ∃ j, dlookup (extendOrder o s) B = some j ∧ o.length < j := by
  induction s with
  | nil => intro o B _ _ hmem; cases hmem
  | cons x xs ih =>
      intro o B hV h hmem
      show ∃ j, dlookup (extendOrder (stepOrder o x) xs) B = some j ∧ o.length < j
      cases hdx : dlookup o x with
      | some w =>
          have hstep : stepOrder o x = o := by simp [stepOrder, hdx]
          have hBx : B ≠ x := by
            intro he; rw [he, hdx] at h; cases h
          have hmem' : B ∈ xs := (List.mem_cons.mp hmem).resolve_left hBx
          rw [hstep]
          exact ih o B hV h hmem'
      | none =>
          have hstep : stepOrder o x = o ++ [(x, o.length + 1)] := by
            simp [stepOrder, hdx]
          have hV' : Vbound (o ++ [(x, o.length + 1)]) := by
            intro p hp
            simp only [List.length_append, List.length_cons, List.length_nil]
            rcases List.mem_append.mp hp with hpo | hps
            · have := hV p hpo; omega
            · obtain rfl := List.mem_singleton.mp hps; simp
          by_cases hBx : B = x
          · subst hBx
            have hsome : dlookup (o ++ [(B, o.length + 1)]) B = some (o.length + 1) := by
              rw [dlookup_append, h, dlookup_cons]; simp
            refine ⟨o.length + 1, ?_, Nat.lt_succ_self _⟩
            rw [hstep]
            exact dlookup_extendOrder_some xs _ B _ hsome
          · have hxB : ¬x = B := fun he => hBx he.symm
            have h' : dlookup (o ++ [(x, o.length + 1)]) B = none := by
              rw [dlookup_append, h, dlookup_cons]
              simp [hxB, dlookup]
            have hmem' : B ∈ xs := (List.mem_cons.mp hmem).resolve_left hBx
            obtain ⟨j, hj, hjlt⟩ := ih _ B hV' h' hmem'
            refine ⟨j, by rw [hstep]; exact hj, ?_⟩
            simp only [List.length_append, List.length_cons, List.length_nil] at hjlt
            omega

theorem firstIdx_split :
    ∀ (s : List String) (A B : String), A ∈ s → B ∈ s →
      firstIdx s A < firstIdx s B →
      ∃ t u, s = t ++ A :: u ∧ A ∉ t ∧ B ∉ t ∧ B ≠ A ∧ B ∈ u := by
  intro s
  induction s with
  | nil => intro A B hA _ _; cases hA
  | cons h rest ih =>
      intro A B hA hB hlt
      by_cases hhA : h = A
      · subst hhA
        have hBA : B ≠ h := by
          intro he
          subst he
          exact lt_irrefl _ hlt
        have hBrest : B ∈ rest := (List.mem_cons.mp hB).resolve_left hBA
        exact ⟨[], rest, by simp, by simp, by simp, hBA, hBrest⟩
      · have hhB : h ≠ B := by
          intro he
          subst he
          simp [firstIdx] at hlt
        have hA' : A ∈ rest := (List.mem_cons.mp hA).resolve_left (fun he => hhA he.symm)
        have hB' : B ∈ rest := (List.mem_cons.mp hB).resolve_left (fun he => hhB he.symm)
        have hlt' : firstIdx rest A < firstIdx rest B := by
          simp only [firstIdx, if_neg hhA, if_neg hhB] at hlt
          omega
        obtain ⟨t, u, hs, hAt, hBt, hBA, hBu⟩ := ih A B hA' hB' hlt'
        refine ⟨h :: t, u, by rw [List.cons_append, hs], ?_, ?_, hBA, hBu⟩
        · intro hmem
          rcases List.mem_cons.mp hmem with he | hm
          · exact hhA he.symm
          · exact hAt hm
        · intro hmem
          rcases List.mem_cons.mp hmem with he | hm
          · exact hhB he.symm
          · exact hBt hm

/-! ### Effect of the public calls on the state -/

/-- General frame lemma for `AddCitation` (any content type). -/
theorem addCitation_frame {α : Type} (b : Bibliography α) (l : String) :
    (AddCitation b l).citations = b.citations ++ [l] ∧
    (AddCitation b l).references = b.references ∧
    (AddCitation b l).orderby = b.orderby ∧
    (AddCitation b l).dflt = b.dflt := by
  have hmf := maybeUpdateOrder_frame { b with citations := b.citations ++ [l] } l
  unfold AddCitation
  cases h : b.orderby <;> rw [h] at hmf <;> simp_all

theorem addCitation_order_citationFirst {α : Type} (b : Bibliography α) (l : String)
    (hp : b.orderby = .citationFirst) (hG : GoodOrder b.order) :
    (AddCitation b l).order = stepOrder b.order l := by
  obtain ⟨ob, oo, oc, orf, od⟩ := b
  cases hp
  exact maybeUpdateOrder_order ⟨.citationFirst, oo, oc ++ [l], orf, od⟩ l hG

theorem addCitation_order_referenceFirst {α : Type} (b : Bibliography α) (l : String)
    (hp : b.orderby = .referenceFirst) :
    (AddCitation b l).order = b.order := by
  obtain ⟨ob, oo, oc, orf, od⟩ := b
  cases hp
  rfl

theorem addReference_ok_effect {α : Type} (b : Bibliography α) (l : String) (c : α)
    (b' : Bibliography α) (h : AddReference b l c = .ok b') :
    b'.citations = b.citations ∧
    b'.references = b.references ++ [(l, c)] ∧
    b'.orderby = b.orderby ∧
    b'.dflt = b.dflt ∧
    (b.orderby = .citationFirst → b'.order = b.order) ∧
    (b.orderby = .referenceFirst → GoodOrder b.order → b'.order = stepOrder b.order l) := by
  obtain ⟨ob, oo, oc, orf, od⟩ := b
  unfold AddReference at h
  split at h
  · cases h
  · cases ob with
    | citationFirst =>
        simp only [Except.ok.injEq] at h
        subst h
        exact ⟨rfl, rfl, rfl, rfl, fun _ => rfl, fun hc _ => nomatch hc⟩
    | referenceFirst =>
        simp only [Except.ok.injEq] at h
        subst h
        have hmf := maybeUpdateOrder_frame
          (⟨.referenceFirst, oo, oc, orf ++ [(l, c)], od⟩ : Bibliography α) l
        refine ⟨hmf.1, hmf.2.1, hmf.2.2.1, hmf.2.2.2, ?_, ?_⟩
        · intro hc; exact absurd hc (by simp)
        · intro _ hG
          exact maybeUpdateOrder_order ⟨.referenceFirst, oo, oc, orf ++ [(l, c)], od⟩ l hG

/-- Characterisation of a successful call sequence: the final order table is
the initial one extended by the policy-relevant sightings, in order; the
gap-free invariant and the policy are preserved. -/
theorem runOps_order {α : Type} (ops : List (BibOp α)) :
    ∀ (b b' : Bibliography α), GoodOrder b.order → runOps b ops = .ok b' →
      b'.order = extendOrder b.order (sightings b.orderby ops) ∧
      GoodOrder b'.order ∧ b'.orderby = b.orderby := by
  induction ops with
  | nil =>
      intro b b' hG h
      simp only [runOps, Except.ok.injEq] at h
      subst h
      exact ⟨by simp [sightings, extendOrder], hG, rfl⟩
  | cons op rest ih =>
      intro b b' hG h
      cases op with
      | cite l =>
          have h' : runOps (AddCitation b l) rest = .ok b' := by
            simpa [runOps, applyOp] using h
          have hob : (AddCitation b l).orderby = b.orderby := (addCitation_frame b l).2.2.1
          cases hp : b.orderby with
          | citationFirst =>
              have horder : (AddCitation b l).order = stepOrder b.order l :=
                addCitation_order_citationFirst b l hp hG
              have hG' : GoodOrder (AddCitation b l).order := by
                rw [horder]; exact goodOrder_stepOrder _ _ hG
              obtain ⟨h1, h2, h3⟩ := ih (AddCitation b l) b' hG' h'
              rw [hob, hp] at h1 h3
              refine ⟨?_, h2, h3⟩
              rw [h1, horder]
              simp [sightings, extendOrder]
          | referenceFirst =>
              have horder : (AddCitation b l).order = b.order :=
                addCitation_order_referenceFirst b l hp
              have hG' : GoodOrder (AddCitation b l).order := by rw [horder]; exact hG
              obtain ⟨h1, h2, h3⟩ := ih (AddCitation b l) b' hG' h'
              rw [hob, hp] at h1 h3
              refine ⟨?_, h2, h3⟩
              rw [h1, horder]
              simp [sightings]
      | ref l c =>
          cases har : AddReference b l c with
          | error e =>
              rw [show runOps b (.ref l c :: rest) =
                  match AddReference b l c with
                  | .ok b₂ => runOps b₂ rest
                  | .error e => .error e from rfl, har] at h
              cases h
          | ok b₂ =>
              have h' : runOps b₂ rest = .ok b' := by
                rw [show runOps b (.ref l c :: rest) =
                    match AddReference b l c with
                    | .ok b₂ => runOps b₂ rest
                    | .error e => .error e from rfl, har] at h
                exact h
              obtain ⟨_, _, hob, _, hcit, href⟩ := addReference_ok_effect b l c b₂ har
              cases hp : b.orderby with
              | citationFirst =>
                  have horder : b₂.order = b.order := hcit hp
                  have hG' : GoodOrder b₂.order := by rw [horder]; exact hG
                  obtain ⟨h1, h2, h3⟩ := ih b₂ b' hG' h'
                  rw [hob, hp] at h1 h3
                  refine ⟨?_, h2, h3⟩
                  rw [h1, horder]
                  simp [sightings]
              | referenceFirst =>
                  have horder : b₂.order = stepOrder b.order l := href hp hG
                  have hG' : GoodOrder b₂.order := by
                    rw [horder]; exact goodOrder_stepOrder _ _ hG
                  obtain ⟨h1, h2, h3⟩ := ih b₂ b' hG' h'
                  rw [hob, hp] at h1 h3
                  refine ⟨?_, h2, h3⟩
                  rw [h1, horder]
                  simp [sightings, extendOrder]

/-! ### First claims about the `Bibliography` data model -/

/-- C9: `AddCitation` is total (the Python type assert always passes on a
string label, so no exception can be raised), appends exactly one entry to
`citations`, never touches `references`, and under the `reference-first`
policy never touches `order` either. -/
theorem addCitation_total_frame (b : Bibliography String) (l : String) :
    (AddCitation b l).citations = b.citations ++ [l] ∧
    (AddCitation b l).references = b.references ∧
    (AddCitation b l).orderby = b.orderby ∧
    (b.orderby = .referenceFirst → (AddCitation b l).order = b.order) := by
  exact ⟨(addCitation_frame b l).1, (addCitation_frame b l).2.1,
    (addCitation_frame b l).2.2.1, fun hp => addCitation_order_referenceFirst b l hp⟩

/-- C9 witness: the theorem applied at a concrete reference-first
bibliography. -/
theorem addCitation_total_frame_witness :
    (AddCitation (initBibliography .referenceFirst) "z").citations = [] ++ ["z"] ∧
    (AddCitation (initBibliography .referenceFirst) "z").order = [] := by
  refine ⟨(addCitation_total_frame (initBibliography .referenceFirst) "z").1, ?_⟩
  exact (addCitation_total_frame (initBibliography .referenceFirst) "z").2.2.2 rfl

/-- C6: a second `AddReference` with an already-stored label always raises
`DuplicateReferenceError` carrying that label, whatever the new content is.
The check precedes the store, so on this path the function produces no new
state: the stored reference is never overwritten. -/
theorem addReference_duplicate_raises (b : Bibliography String)
    (l : String) (v : String) (c : String)
    (h : dlookup b.references l = some v) :
    AddReference b l c = .error (.duplicateReference [l]) := by
  unfold AddReference
  rw [h]
  simp

/-- C6 witness: a stored reference for `"a"`, then a second add with
different content raises carrying `"a"`. -/
theorem addReference_duplicate_raises_witness :
    dlookup [("a", "x")] "a" = some "x" ∧
    AddReference (⟨.citationFirst, [], [], [("a", "x")], ""⟩ : Bibliography String) "a" "y" =
      .error (.duplicateReference ["a"]) := by
  refine ⟨by decide, ?_⟩
  exact addReference_duplicate_raises _ "a" "x" "y" (by decide)

/-- C3: ordering law.  For any call sequence executed without exception on a
fresh bibliography, if the first policy-relevant sighting of label `A`
(first `AddCitation` under `citation-first`, first `AddReference` under
`reference-first`) occurs before the first sighting of label `B`, then
`Index(A) < Index(B)`, regardless of how the other kind of call is
interleaved. -/
theorem citation_order_law (p : OrderBy) (ops : List (BibOp String))
    (b : Bibliography String) (A B : String)
    (hrun : runOps (initBibliography p) ops = .ok b)
    (hA : A ∈ sightings p ops) (hB : B ∈ sightings p ops)
    (hAB : firstIdx (sightings p ops) A < firstIdx (sightings p ops) B) :
    ∃ i j, Index b A = some i ∧ Index b B = some j ∧ i < j := by
  obtain ⟨h1, _, _⟩ := runOps_order ops (initBibliography p) b rfl hrun
  simp only [initBibliography, mkBibliography] at h1
  obtain ⟨t, u, hs, hAt, hBt, hBA, hBu⟩ := firstIdx_split (sightings p ops) A B hA hB hAB
  set o₁ := extendOrder ([] : List (String × Nat)) t with ho₁
  have hG₁ : GoodOrder o₁ := goodOrder_extendOrder t [] rfl
  have hA₁ : dlookup o₁ A = none := dlookup_extendOrder_none t [] A rfl hAt
  have hB₁ : dlookup o₁ B = none := dlookup_extendOrder_none t [] B rfl hBt
  have hstep : stepOrder o₁ A = o₁ ++ [(A, o₁.length + 1)] := by
    simp [stepOrder, hA₁]
  have hord : b.order = extendOrder (stepOrder o₁ A) u := by
    have hcons : extendOrder o₁ (A :: u) = extendOrder (stepOrder o₁ A) u := rfl
    rw [h1, hs, extendOrder_append_list, ← ho₁, hcons]
  set o₂ := o₁ ++ [(A, o₁.length + 1)] with ho₂
  have hG₂ : GoodOrder o₂ := by rw [← hstep]; exact goodOrder_stepOrder o₁ A hG₁
  have hA₂ : dlookup o₂ A = some (o₁.length + 1) := by
    rw [ho₂, dlookup_append, hA₁, dlookup_cons]
    simp
  have hB₂ : dlookup o₂ B = none := by
    have hAB' : ¬A = B := fun he => hBA he.symm
    rw [ho₂, dlookup_append, hB₁, dlookup_cons]
    simp [hAB', dlookup]
  have hIA : dlookup (extendOrder o₂ u) A = some (o₁.length + 1) :=
    dlookup_extendOrder_some u o₂ A _ hA₂
  obtain ⟨j, hIB, hjlt⟩ :=
    dlookup_extendOrder_new u o₂ B (vbound_of_goodOrder o₂ hG₂) hB₂ hBu
  refine ⟨o₁.length + 1, j, ?_, ?_, ?_⟩
  · unfold Index; rw [hord, hstep]; exact hIA
  · unfold Index; rw [hord, hstep]; exact hIB
  · have hlen : o₂.length = o₁.length + 1 := by simp [ho₂]
    omega

/-- Sequence used to witness the ordering law: label `b` gets its reference
first, but the citations of `a` come first, so under `citation-first` the
label `a` receives the smaller number. -/
def c3ops : List (BibOp String) := [.ref "b" "y", .cite "a", .cite "b"]

/-- State reached by `c3ops` on a fresh citation-first bibliography. -/
def c3bib : Bibliography String :=
  ⟨.citationFirst, [("a", 1), ("b", 2)], ["a", "b"], [("b", "y")], ""⟩

/-- C3 witness: the ordering law applied to `c3ops`. -/
theorem citation_order_law_witness :
    runOps (initBibliography .citationFirst) c3ops = .ok c3bib ∧
    "a" ∈ sightings .citationFirst c3ops ∧
    "b" ∈ sightings .citationFirst c3ops ∧
    firstIdx (sightings .citationFirst c3ops) "a" <
      firstIdx (sightings .citationFirst c3ops) "b" ∧
    (∃ i j, Index c3bib "a" = some i ∧ Index c3bib "b" = some j ∧ i < j) := by
  refine ⟨rfl, by decide, by decide, by decide, ?_⟩
  exact citation_order_law .citationFirst c3ops c3bib "a" "b" rfl
    (by decide) (by decide) (by decide)

/-- C5: after any exception-free sequence of calls on a fresh bibliography,
the numbers stored in `order` are exactly `1..|order|` in assignment order
(no gaps, no repeats); the table is exactly the first sightings of the
policy-relevant labels, numbered in first-sighting order; and later calls
only append: an assigned number is never reassigned or reused. -/
theorem order_assignment_invariant (p : OrderBy) (ops : List (BibOp String))
    (b : Bibliography String)
    (hrun : runOps (initBibliography p) ops = .ok b) :
    b.order.map Prod.snd = List.range' 1 b.order.length ∧
    b.order = extendOrder [] (sightings p ops) ∧
    (∀ ops' b', runOps b ops' = .ok b' → ∃ t, b'.order = b.order ++ t) := by
  obtain ⟨h1, h2, _⟩ := runOps_order ops (initBibliography p) b rfl hrun
  refine ⟨h2, ?_, ?_⟩
  · simpa [initBibliography, mkBibliography] using h1
  · intro ops' b' hrun'
    obtain ⟨h1', _, _⟩ := runOps_order ops' b b' h2 hrun'
    rw [h1']
    exact extendOrder_extends _ _

/-- Sequence used to witness the numbering invariant (reference-first). -/
def c5ops : List (BibOp String) := [.cite "b", .ref "a" "x", .cite "a"]

/-- State reached by `c5ops` on a fresh reference-first bibliography. -/
def c5bib : Bibliography String :=
  ⟨.referenceFirst, [("a", 1)], ["b", "a"], [("a", "x")], ""⟩

/-- State reached from `c5bib` after one more `AddReference`. -/
def c5bib' : Bibliography String :=
  ⟨.referenceFirst, [("a", 1), ("c", 2)], ["b", "a"], [("a", "x"), ("c", "z")], ""⟩

/-- C5 witness: the invariant applied to `c5ops`, including the
append-only continuation through one further call. -/
theorem order_assignment_invariant_witness :
    runOps (initBibliography .referenceFirst) c5ops = .ok c5bib ∧
    c5bib.order.map Prod.snd = List.range' 1 c5bib.order.length ∧
    c5bib.order = extendOrder [] (sightings .referenceFirst c5ops) ∧
    (∃ t, c5bib'.order = c5bib.order ++ t) := by
  have h := order_assignment_invariant .referenceFirst c5ops c5bib rfl
  exact ⟨rfl, h.1, h.2.1, h.2.2 [.ref "c" "z"] c5bib' rfl⟩

/-- Bibliography reached by `AddReference("a", "x")` on a fresh
citation-first bibliography: one reference, no citations. -/
def c1bib : Bibliography String :=
  ⟨.citationFirst, [], [], [("a", "x")], ""⟩

/-- C1 counterexample: a bibliography containing a referenced label that is
never cited.  `IsConsistent()` returns `true` on it, although the set of
distinct cited labels differs from the set of referenced labels — the code
checks set inclusion, not set equality. -/
theorem isConsistent_not_set_equality :
    AddReference (initBibliography .citationFirst) "a" "x" = .ok c1bib ∧
    IsConsistent c1bib = true ∧
    c1bib.citations.toFinset ≠ (c1bib.references.map Prod.fst).toFinset := by
  refine ⟨rfl, by decide, by decide⟩

/-- When the numbers in the table are `s, s+1, ...` in storage order, the
linear scan for a stored number finds exactly the pair holding it. -/
theorem find_order_eq (o : List (String × Nat)) (s : Nat) (l : String) (v : Nat)
    (ho : o.map Prod.snd = List.range' s o.length) (hmem : (l, v) ∈ o) :
    o.find? (fun p => ((p.2 : Nat) : Int) == ((v : Nat) : Int)) = some (l, v) := by
  induction o generalizing s with
  | nil => cases hmem
  | cons hd tl ih =>
      obtain ⟨x, y⟩ := hd
      simp only [List.map_cons, List.length_cons] at ho
      rw [List.range'_succ] at ho
      have hy : y = s := (List.cons.inj ho).1
      have htl : tl.map Prod.snd = List.range' (s + 1) tl.length := (List.cons.inj ho).2
      rcases List.mem_cons.mp hmem with heq | hmem'
      · obtain ⟨rfl, rfl⟩ := Prod.mk.inj heq
        exact List.find?_cons_of_pos _ (by simp)
      · have hv : v ∈ tl.map Prod.snd := List.mem_map_of_mem _ hmem'
        rw [htl] at hv
        have hrange := List.mem_range'_1.mp hv
        have hne : (((y : Nat) : Int) == ((v : Nat) : Int)) = false := by
          rw [beq_eq_false_iff_ne]
          subst hy
          intro hc
          have : y = v := by exact_mod_cast hc
          omega
        rw [List.find?_cons]
        simp only [hne]
        exact ih (s + 1) htl hmem'

/-- Total behaviour of `GetReferenceByIndex` on a gap-free order table:
`AssertionError` exactly when the index exceeds `Count()`; the stored triple
when a label holds the index; Python `None` (no exception) when the index is
at most `Count()` but no label holds it — including zero and negative
indices. -/
theorem getReferenceByIndex_cases (b : Bibliography String)
    (hG : GoodOrder b.order) (index : Int) :
    ((Count b : Int) < index → GetReferenceByIndex b index = .error .assertionError) ∧
    (∀ l v, (l, v) ∈ b.order → ((v : Nat) : Int) = index →
        GetReferenceByIndex b index =
          .ok (some (l, index, (defaultGet b.references l b.dflt).1),
            { b with references := (defaultGet b.references l b.dflt).2 })) ∧
    ((∀ p ∈ b.order, ((p.2 : Nat) : Int) ≠ index) → index ≤ (Count b : Int) →
        GetReferenceByIndex b index = .ok (none, b)) := by
  refine ⟨?_, ?_, ?_⟩
  · intro h
    unfold GetReferenceByIndex
    rw [if_pos h]
  · intro l v hmem hv
    have h2 := List.mem_range'_1.mp (by rw [← hG]; exact List.mem_map_of_mem _ hmem)
    have h3 : v ≤ Count b := le_trans (by omega) (Nat.le_max_left b.order.length b.references.length)
    have hle : index ≤ (Count b : Int) := by rw [← hv]; exact_mod_cast h3
    unfold GetReferenceByIndex
    rw [if_neg (by omega)]
    have hfind := find_order_eq b.order 1 l v hG hmem
    rw [hv] at hfind
    rw [hfind]
  · intro hnone hle
    unfold GetReferenceByIndex
    rw [if_neg (by omega)]
    have hfind : b.order.find? (fun p => ((p.2 : Nat) : Int) == index) = none := by
      rw [List.find?_eq_none]
      intro p hp
      simpa using hnone p hp
    rw [hfind]

/-- C7: total behaviour of `GetReferenceByIndex` (amended).  The method
raises only for indices strictly greater than `Count()`; for an index held
by some label it returns the `(label, index, content)` triple; for any other
index at most `Count()` — including `0`, negative indices, and in-range
indices left unassigned when `references` outnumber `order` — it silently
returns Python `None` rather than failing. -/
theorem getReferenceByIndex_behavior (b : Bibliography String)
    (hG : GoodOrder b.order) (index : Int) :
    ((Count b : Int) < index → GetReferenceByIndex b index = .error .assertionError) ∧
    (∀ l v, (l, v) ∈ b.order → ((v : Nat) : Int) = index →
        GetReferenceByIndex b index =
          .ok (some (l, index, (defaultGet b.references l b.dflt).1),
            { b with references := (defaultGet b.references l b.dflt).2 })) ∧
    ((∀ p ∈ b.order, ((p.2 : Nat) : Int) ≠ index) → index ≤ (Count b : Int) →
        GetReferenceByIndex b index = .ok (none, b)) :=
  getReferenceByIndex_cases b hG index

/-- Bibliography reached by `AddCitation("a")`, `AddReference("a", "x")`,
`AddReference("b", "y")` under citation-first: `Count()` is `2` but only
index `1` is assigned. -/
def c7bib : Bibliography String :=
  ⟨.citationFirst, [("a", 1)], ["a"], [("a", "x"), ("b", "y")], ""⟩

/-- C7 counterexample: `GetReferenceByIndex` does not fail on every index
outside `[1, Count()]`, nor on every unassigned in-range index — it returns
Python `None`.  Index `0` lies outside `[1, Count()]` on a fresh
bibliography, and on the reachable state `c7bib` the in-range index `2`
(`Count() = 2`) has no assigned label; both calls return `None` without
raising. -/
theorem getReferenceByIndex_returns_none :
    GetReferenceByIndex (initBibliography .citationFirst) 0 =
      .ok (none, initBibliography .citationFirst) ∧
    runOps (initBibliography .citationFirst)
      [.cite "a", .ref "a" "x", .ref "b" "y"] = .ok c7bib ∧
    Count c7bib = 2 ∧
    GetReferenceByIndex c7bib 2 = .ok (none, c7bib) := by
  exact ⟨rfl, rfl, rfl, rfl⟩

/-- C7 witness: the amended behaviour applied to `c7bib` at the assigned
index `1` and at the too-large index `3`. -/
theorem getReferenceByIndex_behavior_witness :
    GoodOrder c7bib.order ∧
    (∃ b₂, GetReferenceByIndex c7bib 1 = .ok (some ("a", (1 : Int), "x"), b₂)) ∧
    GetReferenceByIndex c7bib 3 = .error .assertionError := by
  refine ⟨rfl, ?_, ?_⟩
  · have h := (getReferenceByIndex_behavior c7bib rfl 1).2.1 "a" 1 (by decide) rfl
    exact ⟨{ c7bib with references := (defaultGet c7bib.references "a" c7bib.dflt).2 }, h⟩
  · exact (getReferenceByIndex_behavior c7bib rfl 3).1 (by decide)

/-- C10: on a gap-free table, looking up by index a label that is ordered
but has no stored reference does not raise on the content lookup: the
`defaultdict` supplies the empty string, the triple `(label, index, "")` is
returned, and the lookup mutates `references` by inserting the label with
empty content — which can only grow `Count()` and makes a later
`AddReference` for that label raise `DuplicateReferenceError`. -/
theorem getReferenceByIndex_defaultdict_effect (b : Bibliography String)
    (l : String) (v : Nat) (hG : GoodOrder b.order) (hmem : (l, v) ∈ b.order)
    (hnone : dlookup b.references l = none) (hd : b.dflt = "") :
    GetReferenceByIndex b ((v : Nat) : Int) =
      .ok (some (l, ((v : Nat) : Int), ""),
        { b with references := b.references ++ [(l, "")] }) ∧
    Count b ≤ Count { b with references := b.references ++ [(l, "")] } ∧
    (∀ c, AddReference { b with references := b.references ++ [(l, "")] } l c =
      .error (.duplicateReference [l])) := by
  have hdg : defaultGet b.references l b.dflt = ("", b.references ++ [(l, "")]) := by
    unfold defaultGet
    rw [hnone, hd]
  refine ⟨?_, ?_, ?_⟩
  · have h := (getReferenceByIndex_cases b hG ((v : Nat) : Int)).2.1 l v hmem rfl
    rw [hdg] at h
    exact h
  · simp only [Count, List.length_append, List.length_cons, List.length_nil]
    exact max_le_max le_rfl (Nat.le_succ _)
  · intro c
    unfold AddReference
    have hdl : dlookup (b.references ++ [(l, "")]) l = some "" := by
      rw [dlookup_append, hnone, dlookup_cons]
      simp
    simp [hdl]

/-- State reached by `AddCitation("a")`, `AddReference("b", "y")` under
citation-first: label `a` is ordered but has no stored reference. -/
def c10bib : Bibliography String :=
  ⟨.citationFirst, [("a", 1)], ["a"], [("b", "y")], ""⟩

/-- State `c10bib` after the `defaultdict` lookup inserted `("a", "")`. -/
def c10bib' : Bibliography String :=
  ⟨.citationFirst, [("a", 1)], ["a"], [("b", "y"), ("a", "")], ""⟩

/-- C10 witness: on the reachable state `c10bib` the lookup at index `1`
returns `("a", 1, "")`, strictly increases `Count()` (from `1` to `2`), and
a subsequent `AddReference("a", "z")` raises `DuplicateReferenceError`. -/
theorem getReferenceByIndex_defaultdict_effect_witness :
    runOps (initBibliography .citationFirst) [.cite "a", .ref "b" "y"] = .ok c10bib ∧
    GetReferenceByIndex c10bib 1 = .ok (some ("a", (1 : Int), ""), c10bib') ∧
    Count c10bib < Count c10bib' ∧
    AddReference c10bib' "a" "z" = .error (.duplicateReference ["a"]) := by
  have h := getReferenceByIndex_defaultdict_effect c10bib "a" 1
    rfl (by decide) (by decide) rfl
  exact ⟨rfl, h.1, by decide, h.2.2 "z"⟩

/-- C1 amended: `IsConsistent()` returns `true` iff every distinct cited
label has a matching reference (set of cited labels is a subset of the set
of referenced labels).  Duplicate citations are irrelevant (only the label
set matters), and a referenced label that is never cited does not affect the
result. -/
theorem isConsistent_iff_subset (b : Bibliography String) :
    IsConsistent b = true ↔
      b.citations.toFinset ⊆ (b.references.map Prod.fst).toFinset := by
  unfold IsConsistent
  rw [decide_eq_true_iff]
  exact Finset.inter_eq_left

/-! ### The marker scanner

The document side works on flat node texts.  `findAllCite` is
`re.findall(r"\\cite\{(\w+)\}", text)`: a left-to-right scan collecting the
label of every non-overlapping match.  `findFirstBib` is
`re.search(r"\\bibitem\{(\w+)\} ?(.*)", text)`, restricted to the first
capture group (the only one the program uses): the leftmost match wins.
Both use fuel equal to the text length; every step consumes at least one
character, so the fuel never runs out. -/

abbrev Str := List Char

/-- Python `\w` without `re.UNICODE`: ASCII letters, digits, underscore. -/
def isWordChar (c : Char) : Bool := c.isAlpha || c.isDigit || c = '_'

/-- Longest word-character run at the head of the text (the greedy `\w+`). -/
def takeWord : Str → Str × Str
  | [] => ([], [])
  | c :: rest =>
      if isWordChar c then
        let r := takeWord rest
        (c :: r.1, r.2)
      else ([], c :: rest)

def citeOpen : Str := ("\\cite").toList ++ ['\x7b']

def bibOpen : Str := ("\\bibitem").toList ++ ['\x7b']

/-- Match `\cite{(\w+)}` at the head of the text; on success return the
captured label and the rest of the text after the match. -/
def matchCiteAt (s : Str) : Option (String × Str) :=
  if citeOpen.isPrefixOf s then
    let w := takeWord (s.drop 6)
    match w.1, w.2 with
    | [], _ => none
    | lbl, '\x7d' :: r => some (String.mk lbl, r)
    | _, _ => none
  else none

def findAllCiteAux : Nat → Str → List String
  | 0, _ => []
  | _ + 1, [] => []
  | fuel + 1, c :: rest =>
      match matchCiteAt (c :: rest) with
      | some (w, r) => w :: findAllCiteAux fuel r
      | none => findAllCiteAux fuel rest

/-- Python `re.findall(self.citationformat, text)`. -/
def findAllCite (s : Str) : List String := findAllCiteAux s.length s

/-- Match `\bibitem{(\w+)}` at the head of the text (the trailing
` ?(.*)` of the pattern always matches and its group is never used). -/
def matchBibAt (s : Str) : Option String :=
  if bibOpen.isPrefixOf s then
    let w := takeWord (s.drop 9)
    match w.1, w.2 with
    | [], _ => none
    | lbl, '\x7d' :: _ => some (String.mk lbl)
    | _, _ => none
  else none

def findFirstBibAux : Nat → Str → Option String
  | 0, _ => none
  | _ + 1, [] => none
  | fuel + 1, c :: rest =>
      match matchBibAt (c :: rest) with
      | some w => some w
      | none => findFirstBibAux fuel rest

/-- Label of `re.search(self.bibformat, text)`, if any. -/
def findFirstBib (s : Str) : Option String := findFirstBibAux s.length s

/-- Leftmost non-overlapping replacement of every occurrence of a literal
pattern (`re.sub` on the literal `\cite{label}` / `\bibitem{label}`
patterns; the labels are word characters, so the patterns are literal). -/
def replaceAllAux : Nat → Str → Str → Str → Str
  | 0, s, _, _ => s
  | _ + 1, [], _, _ => []
  | fuel + 1, c :: rest, pat, rep =>
      if pat ≠ [] ∧ pat.isPrefixOf (c :: rest) then
        rep ++ replaceAllAux fuel ((c :: rest).drop pat.length) pat rep
      else
        c :: replaceAllAux fuel rest pat rep

def replaceAll (s pat rep : Str) : Str := replaceAllAux s.length s pat rep

/-- The literal pattern `\cite{label}`. -/
def citePat (label : String) : Str :=
  ("\\cite").toList ++ '\x7b' :: label.toList ++ ['\x7d']

/-- The literal pattern `\bibitem{label}`. -/
def bibPat (label : String) : Str :=
  ("\\bibitem").toList ++ '\x7b' :: label.toList ++ ['\x7d']

/-! ### The renderer -/

/-- Values of `supportedcitestyles`. -/
inductive CiteStyle where
  | squareBrace
  | superscript
  | parens
deriving DecidableEq

/-- Values of `supportedbibstyles`. -/
inductive BibStyle where
  | squareBrace
  | digitDot
deriving DecidableEq

/-- Python `ApplePages.RenderCitation`: the text substituted for a citation
marker.  The superscript form wraps the index in the span markup built
around the shared style identifier. -/
def RenderCitation (style : CiteStyle) (index : Nat) : Str :=
  match style with
  | .squareBrace => '[' :: (Nat.repr index).toList ++ [']']
  | .superscript =>
      ("<sf:span sf:style=\"SFWPCharacterStyle-50000\">").toList ++
        (Nat.repr index).toList ++ ("</sf:span>").toList
  | .parens => '(' :: (Nat.repr index).toList ++ [')']

/-- The `replacementtext` prefix of `RenderReference`: `"{index}. "` for
digit-dot, `"[index] "` for square-brace. -/
def replacementtext (style : BibStyle) (index : Nat) : Str :=
  match style with
  | .digitDot => (Nat.repr index).toList ++ ('.' :: [' '])
  | .squareBrace => '[' :: (Nat.repr index).toList ++ (']' :: [' '])

/-! ### The document pipeline (`ApplePages.ProcessCitations`)

A document is the list of the texts of its `sf:p` nodes, in document
order; node identity is the list position.  The bibliography used by the
pipeline stores node positions as reference contents (the program stores
the node objects); its `defaultdict` factory value is modelled by `0` and
is never consulted in any run appearing below (the Python factory would
yield the string `""` and crash later — unreachable after validation). -/

/-- The loop body of the scan pass (one node): collect all citation labels,
record the node in `citationnodes` when it cites, honour at most the first
bib-item match, record the node in `bibnodes` and add the reference. -/
def scanStep (bib : Bibliography Nat) (citationnodes bibnodes : List Nat)
    (idx : Nat) (t : Str) :
    Except ExciteError (Bibliography Nat × List Nat × List Nat) :=
  let citationmatch := findAllCite t
  let bib₁ := citationmatch.foldl AddCitation bib
  let citationnodes₁ :=
    if citationmatch.length ≠ 0 then citationnodes ++ [idx] else citationnodes
  match findFirstBib t with
  | none => .ok (bib₁, citationnodes₁, bibnodes)
  | some label =>
      match AddReference bib₁ label idx with
      | .error e => .error e
      | .ok bib₂ => .ok (bib₂, citationnodes₁, bibnodes ++ [idx])

/-- The scan pass over all nodes. -/
def scanDocAux : List Str → Nat → Bibliography Nat → List Nat → List Nat →
    Except ExciteError (Bibliography Nat × List Nat × List Nat)
  | [], _, bib, cns, bns => .ok (bib, cns, bns)
  | t :: rest, i, bib, cns, bns =>
      match scanStep bib cns bns i t with
      | .error e => .error e
      | .ok (bib', cns', bns') => scanDocAux rest (i + 1) bib' cns' bns'

/-- The inner `replacecitation` of `__ReplaceCitationMarkers`: for each
label found in the original text, substitute every occurrence of its
marker; a label without an assigned index raises `KeyError`. -/
def replacecitationAux (style : CiteStyle) (bib : Bibliography Nat) :
    List String → Str → Except ExciteError Str
  | [], t => .ok t
  | label :: rest, t =>
      match Index bib label with
      | none => .error .keyError
      | some idx =>
          replacecitationAux style bib rest
            (replaceAll t (citePat label) (RenderCitation style idx))

def replacecitation (style : CiteStyle) (bib : Bibliography Nat) (text : Str) :
    Except ExciteError Str :=
  replacecitationAux style bib (findAllCite text) text

/-- Python `__ReplaceCitationMarkers`: rewrite each citation-bearing node in place,
in encounter order.  On an exception the document keeps the nodes already
rewritten (the error carries the document state seen by the caller). -/
def ReplaceCitationMarkers (style : CiteStyle) (bib : Bibliography Nat) :
    List Nat → List Str → Except (ExciteError × List Str) (List Str)
  | [], doc => .ok doc
  | i :: rest, doc =>
      match replacecitation style bib (doc.getD i []) with
      | .error e => .error (e, doc)
      | .ok t => ReplaceCitationMarkers style bib rest (doc.set i t)

/-- Python `ApplePages.RenderReference`: fetch by index, then build the rendered
node text.  `GetReferenceByIndex` falling through (Python `None`) makes the
tuple unpacking raise `TypeError`. -/
def RenderReference (style : BibStyle) (bib : Bibliography Nat)
    (doc : List Str) (index : Nat) : Except ExciteError (Str × Bibliography Nat) :=
  match GetReferenceByIndex bib (index : Int) with
  | .error e => .error e
  | .ok (none, _) => .error .typeError
  | .ok (some (label, _, nodeIdx), bib') =>
      let referencetext := doc.getD nodeIdx []
      .ok (replaceAll referencetext (bibPat label) (replacementtext style index), bib')

/-- The `renderednodes` loop of `__ReplaceBibitemMarkers`: render sequence
numbers in order, threading the bibliography (whose `defaultdict` may be
mutated by the lookups). -/
def renderLoop (style : BibStyle) :
    Bibliography Nat → List Str → List Nat →
      Except ExciteError (List Str × Bibliography Nat)
  | bib, _, [] => .ok ([], bib)
  | bib, doc, i :: rest =>
      match RenderReference style bib doc i with
      | .error e => .error e
      | .ok (t, bib') =>
          match renderLoop style bib' doc rest with
          | .error e => .error e
          | .ok (ts, bib'') => .ok (t :: ts, bib'')

/-- The write-back loop of `__ReplaceBibitemMarkers`: `zip` truncates to the
shorter list, exactly like Python `zip`. -/
def writeNodes : List (Nat × Str) → List Str → List Str
  | [], doc => doc
  | (i, t) :: rest, doc => writeNodes rest (doc.set i t)

/-- Python `__ReplaceBibitemMarkers`: all renders happen before any write. -/
def ReplaceBibitemMarkers (style : BibStyle) (bib : Bibliography Nat)
    (bibnodes : List Nat) (doc : List Str) : Except ExciteError (List Str) :=
  match renderLoop style bib doc (List.range' 1 (Count bib)) with
  | .error e => .error e
  | .ok (rendered, _) => .ok (writeNodes (bibnodes.zip rendered) doc)

/-- Python `ApplePages.ProcessCitations`: scan, validate, rewrite citations,
rewrite references.  The style and policy asserts are enforced by the
enumerated types.  Errors carry the document state observable by the
caller at the moment the exception propagates. -/
def ProcessCitations (doc : List Str) (citestyle : CiteStyle)
    (bibstyle : BibStyle) (orderby : OrderBy) :
    Except (ExciteError × List Str) (List Str) :=
  match scanDocAux doc 0 (mkBibliography orderby 0) [] [] with
  | .error e => .error (e, doc)
  | .ok (bib, citationnodes, bibnodes) =>
      if IsConsistent bib = false then
        .error (.missingReference
          (bib.citations.toFinset \ (bib.references.map Prod.fst).toFinset), doc)
      else
        match ReplaceCitationMarkers citestyle bib citationnodes doc with
        | .error ed => .error ed
        | .ok doc₁ =>
            match ReplaceBibitemMarkers bibstyle bib bibnodes doc₁ with
            | .error e => .error (e, doc₁)
            | .ok doc₂ => .ok doc₂

/-! ### Claims about the pipeline -/

/-- The document of the worked spec example: citation markers `b`, `a`, `b`
in document order, then the reference entries for `a` and `b`. -/
def c2doc : List Str :=
  [("\\cite{b}").toList, ("\\cite{a}").toList, ("\\cite{b}").toList,
   ("\\bibitem{a} Text A").toList, ("\\bibitem{b} Text B").toList]

/-- What the pipeline actually produces on `c2doc`: note the two spaces
after each rendered number. -/
def c2out : List Str :=
  [("[1]").toList, ("[2]").toList, ("[1]").toList,
   ("1.  Text B").toList, ("2.  Text A").toList]

/-- C2 counterexample: the rewritten reference nodes do not carry
`"1. Text B"` and `"2. Text A"`.  The rendered `"1. "` prefix replaces only
the `\bibitem{b}` marker, so the space that followed the marker in
`"\bibitem{b} Text B"` survives and the node carries `"1.  Text B"` (two
spaces).  The citation-marker part of the claim does hold. -/
theorem processCitations_example_spacing :
    ProcessCitations c2doc .squareBrace .digitDot .citationFirst = .ok c2out ∧
    c2out ≠ [("[1]").toList, ("[2]").toList, ("[1]").toList,
      ("1. Text B").toList, ("2. Text A").toList] :=
  ⟨rfl, by decide⟩

/-- C2 amended: on the example document, with citation-first and
square-brace/digit-dot styles, the three citation markers are rewritten to
`[1]`, `[2]`, `[1]`; the first reference-bearing node in document order
receives the entry numbered 1 (label `b`) and the second the entry numbered
2 (label `a`), their texts being `"1.  Text B"` and `"2.  Text A"` — the
number-dot prefix replaces exactly the marker, keeping the space that
followed it. -/
theorem processCitations_example :
    ProcessCitations c2doc .squareBrace .digitDot .citationFirst = .ok c2out :=
  rfl

/-- Error analysis: the citation-substitution inner loop can only raise
`KeyError`. -/
theorem replacecitationAux_error (style : CiteStyle) (bib : Bibliography Nat) :
    ∀ (ls : List String) (t : Str) (e : ExciteError),
      replacecitationAux style bib ls t = .error e → e = .keyError := by
  intro ls
  induction ls with
  | nil => intro t e h; simp [replacecitationAux] at h
  | cons label rest ih =>
      intro t e h
      unfold replacecitationAux at h
      cases hI : Index bib label with
      | none =>
          rw [hI] at h
          simp only [Except.error.injEq] at h
          exact h.symm
      | some idx =>
          rw [hI] at h
          exact ih _ e h

/-- Error analysis: the citation pass can only raise `KeyError`. -/
theorem replaceCitationMarkers_error (style : CiteStyle) (bib : Bibliography Nat) :
    ∀ (ns : List Nat) (doc : List Str) (e : ExciteError) (d : List Str),
      ReplaceCitationMarkers style bib ns doc = .error (e, d) → e = .keyError := by
  intro ns
  induction ns with
  | nil => intro doc e d h; simp [ReplaceCitationMarkers] at h
  | cons i rest ih =>
      intro doc e d h
      unfold ReplaceCitationMarkers at h
      cases hr : replacecitation style bib (doc.getD i []) with
      | error e' =>
          rw [hr] at h
          simp only [Except.error.injEq, Prod.mk.injEq] at h
          rw [← h.1]
          exact replacecitationAux_error style bib _ _ e' hr
      | ok t =>
          rw [hr] at h
          exact ih _ e d h

/-- Error analysis: `GetReferenceByIndex` raises only `AssertionError`. -/
theorem getReferenceByIndex_error_shape {α : Type} (b : Bibliography α)
    (index : Int) (e : ExciteError)
    (h : GetReferenceByIndex b index = .error e) : e = .assertionError := by
  unfold GetReferenceByIndex at h
  split at h
  · simp only [Except.error.injEq] at h
    exact h.symm
  · split at h <;> simp at h

/-- Error analysis: `RenderReference` raises only `AssertionError` (index
too large) or `TypeError` (unpacking Python `None`). -/
theorem renderReference_error (style : BibStyle) (bib : Bibliography Nat)
    (doc : List Str) (index : Nat) (e : ExciteError)
    (h : RenderReference style bib doc index = .error e) :
    e = .assertionError ∨ e = .typeError := by
  unfold RenderReference at h
  cases hg : GetReferenceByIndex bib ((index : Nat) : Int) with
  | error e' =>
      rw [hg] at h
      simp only [Except.error.injEq] at h
      left
      rw [← h]
      exact getReferenceByIndex_error_shape bib _ e' hg
  | ok pr =>
      obtain ⟨opt, b'⟩ := pr
      cases opt with
      | none =>
          rw [hg] at h
          simp only [Except.error.injEq] at h
          right
          exact h.symm
      | some trip =>
          obtain ⟨label, i2, nodeIdx⟩ := trip
          rw [hg] at h
          simp at h

/-- Error analysis: the render loop raises only `AssertionError` or
`TypeError`. -/
theorem renderLoop_error (style : BibStyle) :
    ∀ (idxs : List Nat) (bib : Bibliography Nat) (doc : List Str) (e : ExciteError),
      renderLoop style bib doc idxs = .error e →
      e = .assertionError ∨ e = .typeError := by
  intro idxs
  induction idxs with
  | nil => intro bib doc e h; simp [renderLoop] at h
  | cons i rest ih =>
      intro bib doc e h
      unfold renderLoop at h
      cases hr : RenderReference style bib doc i with
      | error e' =>
          rw [hr] at h
          simp only [Except.error.injEq] at h
          rw [← h]
          exact renderReference_error style bib doc i e' hr
      | ok pr =>
          obtain ⟨t, bib'⟩ := pr
          rw [hr] at h
          dsimp only at h
          cases hl : renderLoop style bib' doc rest with
          | error e' =>
              rw [hl] at h
              simp only [Except.error.injEq] at h
              rw [← h]
              exact ih bib' doc e' hl
          | ok pr' =>
              obtain ⟨ts, bib''⟩ := pr'
              rw [hl] at h
              simp at h

/-- Error analysis: the reference pass raises only `AssertionError` or
`TypeError`. -/
theorem replaceBibitemMarkers_error (style : BibStyle) (bib : Bibliography Nat)
    (bibnodes : List Nat) (doc : List Str) (e : ExciteError)
    (h : ReplaceBibitemMarkers style bib bibnodes doc = .error e) :
    e = .assertionError ∨ e = .typeError := by
  unfold ReplaceBibitemMarkers at h
  cases hl : renderLoop style bib doc (List.range' 1 (Count bib)) with
  | error e' =>
      rw [hl] at h
      simp only [Except.error.injEq] at h
      rw [← h]
      exact renderLoop_error style _ bib doc e' hl
  | ok pr =>
      obtain ⟨r, b'⟩ := pr
      rw [hl] at h
      simp at h

/-- C4 amended: failures raised while scanning (`DuplicateReferenceError`)
or validating (`MissingReferenceError`) leave the document exactly as it
was — rewriting only begins after validation.  The universal claim fails,
however: validation only checks that cited labels are referenced, so a
referenced-but-never-cited label can pass validation and make the
reference pass fail (`TypeError`) after the citation pass has already
rewritten nodes; that partial state is observable (see the
counterexample). -/
theorem processCitations_prevalidation_atomic (doc : List Str)
    (cs : CiteStyle) (bs : BibStyle) (p : OrderBy) (e : ExciteError)
    (d : List Str) (h : ProcessCitations doc cs bs p = .error (e, d)) :
    (∀ ls, e = .duplicateReference ls → d = doc) ∧
    (∀ fs, e = .missingReference fs → d = doc) := by
  unfold ProcessCitations at h
  cases hs : scanDocAux doc 0 (mkBibliography p 0) [] [] with
  | error e' =>
      rw [hs] at h
      simp only [Except.error.injEq, Prod.mk.injEq] at h
      exact ⟨fun _ _ => h.2.symm, fun _ _ => h.2.symm⟩
  | ok triple =>
      obtain ⟨bib, cns, bns⟩ := triple
      rw [hs] at h
      dsimp only at h
      by_cases hc : IsConsistent bib = false
      · rw [if_pos hc] at h
        simp only [Except.error.injEq, Prod.mk.injEq] at h
        exact ⟨fun _ _ => h.2.symm, fun _ _ => h.2.symm⟩
      · rw [if_neg hc] at h
        cases hrc : ReplaceCitationMarkers cs bib cns doc with
        | error ed =>
            obtain ⟨e₁, d₁⟩ := ed
            rw [hrc] at h
            simp only [Except.error.injEq, Prod.mk.injEq] at h
            have hk : e₁ = .keyError :=
              replaceCitationMarkers_error cs bib cns doc e₁ d₁ hrc
            refine ⟨fun ls hls => ?_, fun fs hfs => ?_⟩
            · rw [← h.1, hk] at hls; simp at hls
            · rw [← h.1, hk] at hfs; simp at hfs
        | ok doc₁ =>
            rw [hrc] at h
            dsimp only at h
            cases hrb : ReplaceBibitemMarkers bs bib bns doc₁ with
            | error e₂ =>
                rw [hrb] at h
                simp only [Except.error.injEq, Prod.mk.injEq] at h
                have hk := replaceBibitemMarkers_error bs bib bns doc₁ e₂ hrb
                refine ⟨fun ls hls => ?_, fun fs hfs => ?_⟩ <;>
                  rcases hk with hk | hk
                · rw [← h.1, hk] at hls; simp at hls
                · rw [← h.1, hk] at hls; simp at hls
                · rw [← h.1, hk] at hfs; simp at hfs
                · rw [← h.1, hk] at hfs; simp at hfs
            | ok doc₂ =>
                rw [hrb] at h
                simp at h

/-- A document whose bibliography passes validation (every cited label is
referenced) although label `b` is referenced and never cited. -/
def c4doc : List Str :=
  [("\\cite{a} x").toList, ("\\bibitem{a} A").toList, ("\\bibitem{b} B").toList]

/-- The observable document state when `ProcessCitations` fails on
`c4doc`: the citation node has already been rewritten. -/
def c4seen : List Str :=
  [("[1] x").toList, ("\\bibitem{a} A").toList, ("\\bibitem{b} B").toList]

/-- C4 counterexample: on `c4doc` the operation fails (`TypeError`, from
`GetReferenceByIndex` falling through for sequence number 2) with the
citation marker already rewritten — a partially rewritten state is
observable by the caller, contradicting atomicity. -/
theorem processCitations_observable_mutation :
    ProcessCitations c4doc .squareBrace .digitDot .citationFirst =
      .error (.typeError, c4seen) ∧
    c4seen ≠ c4doc :=
  ⟨rfl, by decide⟩

/-- A document with a duplicated reference label. -/
def c4dup : List Str :=
  [("\\bibitem{a} A").toList, ("\\bibitem{a} B").toList]

/-- C4 witness: the amended atomicity applied to the duplicate-reference
document; the error carries the untouched document. -/
theorem processCitations_prevalidation_atomic_witness :
    ProcessCitations c4dup .squareBrace .digitDot .citationFirst =
      .error (.duplicateReference ["a"], c4dup) ∧
    c4dup = c4dup :=
  ⟨rfl, (processCitations_prevalidation_atomic c4dup .squareBrace .digitDot
    .citationFirst (.duplicateReference ["a"]) c4dup rfl).1 ["a"] rfl⟩

/-- Frame of the all-citations fold of the scan loop: it appends exactly
the found labels to `citations` and never touches `references`. -/
theorem foldl_addCitation {α : Type} (labels : List String) :
    ∀ (b : Bibliography α),
      (labels.foldl AddCitation b).citations = b.citations ++ labels ∧
      (labels.foldl AddCitation b).references = b.references ∧
      (labels.foldl AddCitation b).orderby = b.orderby := by
  induction labels with
  | nil => intro b; simp
  | cons l ls ih =>
      intro b
      simp only [List.foldl_cons]
      obtain ⟨h1, h2, h3⟩ := ih (AddCitation b l)
      refine ⟨?_, ?_, ?_⟩
      · rw [h1, (addCitation_frame b l).1]; simp
      · rw [h2, (addCitation_frame b l).2.1]
      · rw [h3, (addCitation_frame b l).2.2.1]

/-- C8: one scan step on a node text records every `\cite{label}`
occurrence found by the scanner as a separate citation (a label cited `N`
times contributes `N` entries), but performs at most one `AddReference`:
only the first `\bibitem` match of the node produces one, and any later
`\bibitem` occurrence in the same node is ignored. -/
theorem scanStep_markers (bib : Bibliography Nat) (cns bns : List Nat)
    (i : Nat) (t : Str) (bib' : Bibliography Nat) (cns' bns' : List Nat)
    (h : scanStep bib cns bns i t = .ok (bib', cns', bns')) :
    bib'.citations = bib.citations ++ findAllCite t ∧
    (match findFirstBib t with
     | some label => bib'.references = bib.references ++ [(label, i)] ∧ bns' = bns ++ [i]
     | none => bib'.references = bib.references ∧ bns' = bns) := by
  unfold scanStep at h
  cases hf : findFirstBib t with
  | none =>
      rw [hf] at h
      simp only [Except.ok.injEq, Prod.mk.injEq] at h
      obtain ⟨hb, _, hn⟩ := h
      have hfold := foldl_addCitation (findAllCite t) bib
      exact ⟨by rw [← hb]; exact hfold.1, by rw [← hb]; exact hfold.2.1, hn.symm⟩
  | some label =>
      rw [hf] at h
      dsimp only at h
      cases ha : AddReference ((findAllCite t).foldl AddCitation bib) label i with
      | error e => rw [ha] at h; simp at h
      | ok bib₂ =>
          rw [ha] at h
          simp only [Except.ok.injEq, Prod.mk.injEq] at h
          obtain ⟨hb, _, hn⟩ := h
          have hfold := foldl_addCitation (findAllCite t) bib
          have hre := addReference_ok_effect _ label i bib₂ ha
          refine ⟨?_, ?_, ?_⟩
          · rw [← hb, hre.1, hfold.1]
          · rw [← hb, hre.2.1, hfold.2.1]
          · rw [← hn]

/-- The node text used to witness the scan-step claim: one label cited
twice and two bib-item markers in the same node. -/
def c8text : Str :=
  ("\\cite{x} \\cite{x} \\bibitem{a} A \\bibitem{b} B").toList

/-- The bibliography produced by scanning `c8text` as node `0`. -/
def c8bib : Bibliography Nat :=
  ⟨.citationFirst, [("x", 1)], ["x", "x"], [("a", 0)], 0⟩

/-- C8 witness: scanning the node records the label cited twice as two
citation entries and stores only the first bib-item label (`a`); the second
(`b`) is ignored. -/
theorem scanStep_markers_witness :
    scanStep (mkBibliography .citationFirst 0) [] [] 0 c8text =
      .ok (c8bib, [0], [0]) ∧
    c8bib.citations = [] ++ findAllCite c8text ∧
    findAllCite c8text = ["x", "x"] ∧
    findFirstBib c8text = some "a" ∧
    c8bib.references = [("a", 0)] := by
  refine ⟨rfl, ?_, by decide, by decide, rfl⟩
  exact (scanStep_markers (mkBibliography .citationFirst 0) [] [] 0 c8text
    c8bib [0] [0] rfl).1

end Excite
